import Mathlib

/-!
# Quaternion conversions of `include/aiQuaternion.h`

A shallow embedding of the quaternion value type of the Open Asset Import
Library and of its four conversions: rotation matrix to quaternion, Euler
angles to quaternion, axis-angle to quaternion and quaternion to matrix.

The C++ code computes in `float`.  The embedding is generic over a linearly
ordered field `α`, so every definition is executable (for instance over `ℚ`),
and the functions of `<math.h>` the code calls (`sqrt`, `sin`, `cos`) are
parameters of the definition that calls them.  The theorems instantiate `α`
with `ℝ` and the parameters with `Real.sqrt`, `Real.sin` and `Real.cos`: they
speak about the code's formulas evaluated in exact real arithmetic.  A `float`
literal of the source (`0.00001f`, `0.25f`, `2.0f`, `0.5F`) stands for the
decimal number it spells, so the threshold of the trace test is exactly `1e-5`.
-/

namespace Assimp

/-! ## Data model -/

/-- Modelled from the spec: the 3D vector type `aiVector3D` of `aiTypes.h`,
included by the header but not part of it; three scalars `x`, `y`, `z`. -/
structure aiVector3D (α : Type) where
  x : α
  y : α
  z : α

/-- Modelled from the spec: the 3x3 matrix type `aiMatrix3x3` of `aiTypes.h`,
included by the header but not part of it; nine scalars `a1 .. c3`, the letter
naming the row and the digit the column. -/
structure aiMatrix3x3 (α : Type) where
  a1 : α
  a2 : α
  a3 : α
  b1 : α
  b2 : α
  b3 : α
  c1 : α
  c2 : α
  c3 : α

/-- The struct `aiQuaternion`: `float w, x, y, z;`. -/
structure aiQuaternion (α : Type) where
  w : α
  x : α
  y : α
  z : α

section Code

variable {α : Type} [LinearOrderedField α]

/-- Modelled from the spec: `aiVector3D::Length`, the Euclidean length of the
vector; `sqrt` is the square root of `<math.h>`. -/
def aiVector3D.Length (sqrt : α → α) (v : aiVector3D α) : α :=
  sqrt (v.x * v.x + v.y * v.y + v.z * v.z)

/-- Modelled from the spec: `aiVector3D::Normalize`, which rescales the vector
to unit length by dividing every component by the Euclidean length. -/
def aiVector3D.Normalize (sqrt : α → α) (v : aiVector3D α) : aiVector3D α :=
  { x := v.x / v.Length sqrt
    y := v.y / v.Length sqrt
    z := v.z / v.Length sqrt }

/-- The default constructor `aiQuaternion()`: all four components `0.0f`. -/
def aiQuaternion.default : aiQuaternion α :=
  { w := 0, x := 0, y := 0, z := 0 }

/-- The four branches of the matrix constructor. -/
inductive Branch where
  | trace
  | column0
  | column1
  | column2
  deriving DecidableEq, Repr

/-- The branch `aiQuaternion(const aiMatrix3x3&)` selects: the conditions of
its `if` / `else if` chain, in the order of the source. -/
def aiQuaternion.branchOf (m : aiMatrix3x3 α) : Branch :=
  let t := 1 + m.a1 + m.b2 + m.c3
  if t > 0.00001 then Branch.trace
  else if m.a1 > m.b2 ∧ m.a1 > m.c3 then Branch.column0
  else if m.b2 > m.c3 then Branch.column1
  else Branch.column2

/-- The argument of `sqrt` in the branch `aiQuaternion(const aiMatrix3x3&)`
selects. -/
def aiQuaternion.radicandOf (m : aiMatrix3x3 α) : α :=
  let t := 1 + m.a1 + m.b2 + m.c3
  if t > 0.00001 then t
  else if m.a1 > m.b2 ∧ m.a1 > m.c3 then 1.0 + m.a1 - m.b2 - m.c3
  else if m.b2 > m.c3 then 1.0 + m.b2 - m.a1 - m.c3
  else 1.0 + m.c3 - m.a1 - m.b2

/-- The divisor `s` of the branch `aiQuaternion(const aiMatrix3x3&)` selects:
`sqrt(...) * 2.0f`. -/
def aiQuaternion.divisorOf (sqrt : α → α) (m : aiMatrix3x3 α) : α :=
  sqrt (aiQuaternion.radicandOf m) * 2.0

/-- The constructor `aiQuaternion(const aiMatrix3x3& pRotMatrix)`. -/
def aiQuaternion.fromMatrix (sqrt : α → α) (m : aiMatrix3x3 α) : aiQuaternion α :=
  let t := 1 + m.a1 + m.b2 + m.c3
  -- large enough
  if t > 0.00001 then
    let s := sqrt t * 2.0
    { x := (m.b3 - m.c2) / s
      y := (m.c1 - m.a3) / s
      z := (m.a2 - m.b1) / s
      w := 0.25 * s }
  else if m.a1 > m.b2 ∧ m.a1 > m.c3 then
    -- Column 0
    let s := sqrt (1.0 + m.a1 - m.b2 - m.c3) * 2.0
    { x := -0.25 * s
      y := (m.a2 + m.b1) / s
      z := (m.c1 + m.a3) / s
      w := (m.c2 - m.b3) / s }
  else if m.b2 > m.c3 then
    -- Column 1
    let s := sqrt (1.0 + m.b2 - m.a1 - m.c3) * 2.0
    { x := (m.a2 + m.b1) / s
      y := -0.25 * s
      z := (m.b3 + m.c2) / s
      w := (m.a3 - m.c1) / s }
  else
    -- Column 2
    let s := sqrt (1.0 + m.c3 - m.a1 - m.b2) * 2.0
    { x := (m.c1 + m.a3) / s
      y := (m.b3 + m.c2) / s
      z := -0.25 * s
      w := (m.b1 - m.a2) / s }

/-- The constructor `aiQuaternion(float fPitch, float fYaw, float fRoll)`;
`sin` and `cos` are the functions of `<math.h>`. -/
def aiQuaternion.fromEuler (sin cos : α → α) (fPitch fYaw fRoll : α) : aiQuaternion α :=
  let fSinPitch := sin (fPitch * 0.5)
  let fCosPitch := cos (fPitch * 0.5)
  let fSinYaw := sin (fYaw * 0.5)
  let fCosYaw := cos (fYaw * 0.5)
  let fSinRoll := sin (fRoll * 0.5)
  let fCosRoll := cos (fRoll * 0.5)
  let fCosPitchCosYaw := fCosPitch * fCosYaw
  let fSinPitchSinYaw := fSinPitch * fSinYaw
  { x := fSinRoll * fCosPitchCosYaw - fCosRoll * fSinPitchSinYaw
    y := fCosRoll * fSinPitch * fCosYaw + fSinRoll * fCosPitch * fSinYaw
    z := fCosRoll * fCosPitch * fSinYaw - fSinRoll * fSinPitch * fCosYaw
    w := fCosRoll * fCosPitchCosYaw + fSinRoll * fSinPitchSinYaw }

/-- The method `aiQuaternion::GetMatrix() const`. -/
def aiQuaternion.GetMatrix (q : aiQuaternion α) : aiMatrix3x3 α :=
  { a1 := 1.0 - 2.0 * (q.y * q.y + q.z * q.z)
    a2 := 2.0 * (q.x * q.y + q.z * q.w)
    a3 := 2.0 * (q.x * q.z - q.y * q.w)
    b1 := 2.0 * (q.x * q.y - q.z * q.w)
    b2 := 1.0 - 2.0 * (q.x * q.x + q.z * q.z)
    b3 := 2.0 * (q.y * q.z + q.x * q.w)
    c1 := 2.0 * (q.x * q.z + q.y * q.w)
    c2 := 2.0 * (q.y * q.z - q.x * q.w)
    c3 := 1.0 - 2.0 * (q.x * q.x + q.y * q.y) }

/-- The constructor `aiQuaternion(aiVector3D axis, float angle)`: the axis,
passed by value, is normalized first; the quaternion is built from the
normalized axis. -/
def aiQuaternion.fromAxisAngle (sqrt sin cos : α → α) (axis : aiVector3D α) (angle : α) :
    aiQuaternion α :=
  let axis := axis.Normalize sqrt
  let sin_a := sin (angle / 2)
  let cos_a := cos (angle / 2)
  { x := axis.x * sin_a
    y := axis.y * sin_a
    z := axis.z * sin_a
    w := cos_a }

/-- The vectors at the return of a call `aiQuaternion(axis, angle)`, next to
the quaternion that was built: `argument` is the vector object of the caller
that was passed to the call, `axis` is the parameter object of the
constructor. -/
structure AxisAngleCall (α : Type) where
  result : aiQuaternion α
  axis : aiVector3D α
  argument : aiVector3D α

/-- A call of the constructor `aiQuaternion(aiVector3D axis, float angle)` with
the state made explicit. The parameter is declared by value (`aiVector3D axis`,
no reference) in the declaration and in the definition alike: `axis` is an
object of the constructor initialised with a copy of the argument,
`axis.Normalize()` changes that object, and no statement of the body refers to
the object of the caller. -/
def aiQuaternion.callFromAxisAngle (sqrt sin cos : α → α) (argument : aiVector3D α)
    (angle : α) : AxisAngleCall α :=
  -- the parameter object, copy-initialised from the argument
  let axis := argument
  -- axis.Normalize();
  let axis := axis.Normalize sqrt
  let sin_a := sin (angle / 2)
  let cos_a := cos (angle / 2)
  { result :=
      { x := axis.x * sin_a
        y := axis.y * sin_a
        z := axis.z * sin_a
        w := cos_a }
    axis := axis
    argument := argument }

end Code

/-! ## Vocabulary of the properties -/

section Vocabulary

variable {α : Type} [LinearOrderedField α]

/-- The squared norm `w^2 + x^2 + y^2 + z^2` of a quaternion. -/
def aiQuaternion.normSq (q : aiQuaternion α) : α :=
  q.w ^ 2 + q.x ^ 2 + q.y ^ 2 + q.z ^ 2

/-- The quaternion with all four components negated. -/
def aiQuaternion.neg (q : aiQuaternion α) : aiQuaternion α :=
  { w := -q.w, x := -q.x, y := -q.y, z := -q.z }

/-- The 3x3 identity matrix. -/
def aiMatrix3x3.identity : aiMatrix3x3 α :=
  { a1 := 1, a2 := 0, a3 := 0, b1 := 0, b2 := 1, b3 := 0, c1 := 0, c2 := 0, c3 := 1 }

/-- The transposed matrix. -/
def aiMatrix3x3.transpose (m : aiMatrix3x3 α) : aiMatrix3x3 α :=
  { a1 := m.a1, a2 := m.b1, a3 := m.c1
    b1 := m.a2, b2 := m.b2, b3 := m.c2
    c1 := m.a3, c2 := m.b3, c3 := m.c3 }

/-- The matrix product, `a1 .. c3` read as row-major (row, column) entries. -/
def aiMatrix3x3.mul (m n : aiMatrix3x3 α) : aiMatrix3x3 α :=
  { a1 := m.a1 * n.a1 + m.a2 * n.b1 + m.a3 * n.c1
    a2 := m.a1 * n.a2 + m.a2 * n.b2 + m.a3 * n.c2
    a3 := m.a1 * n.a3 + m.a2 * n.b3 + m.a3 * n.c3
    b1 := m.b1 * n.a1 + m.b2 * n.b1 + m.b3 * n.c1
    b2 := m.b1 * n.a2 + m.b2 * n.b2 + m.b3 * n.c2
    b3 := m.b1 * n.a3 + m.b2 * n.b3 + m.b3 * n.c3
    c1 := m.c1 * n.a1 + m.c2 * n.b1 + m.c3 * n.c1
    c2 := m.c1 * n.a2 + m.c2 * n.b2 + m.c3 * n.c2
    c3 := m.c1 * n.a3 + m.c2 * n.b3 + m.c3 * n.c3 }

/-- The determinant. -/
def aiMatrix3x3.det (m : aiMatrix3x3 α) : α :=
  m.a1 * (m.b2 * m.c3 - m.b3 * m.c2) - m.a2 * (m.b1 * m.c3 - m.b3 * m.c1)
    + m.a3 * (m.b1 * m.c2 - m.b2 * m.c1)

/-- The matrix-vector product `M * v` with `v` a column vector. -/
def aiMatrix3x3.mulVec (m : aiMatrix3x3 α) (v : aiVector3D α) : aiVector3D α :=
  { x := m.a1 * v.x + m.a2 * v.y + m.a3 * v.z
    y := m.b1 * v.x + m.b2 * v.y + m.b3 * v.z
    z := m.c1 * v.x + m.c2 * v.y + m.c3 * v.z }

/-- The vector-matrix product `v * M` with `v` a row vector. -/
def aiMatrix3x3.vecMul (v : aiVector3D α) (m : aiMatrix3x3 α) : aiVector3D α :=
  { x := v.x * m.a1 + v.y * m.b1 + v.z * m.c1
    y := v.x * m.a2 + v.y * m.b2 + v.z * m.c2
    z := v.x * m.a3 + v.y * m.b3 + v.z * m.c3 }

/-- Orthonormal matrix: `M` times its transpose is the identity matrix. -/
def aiMatrix3x3.IsOrthonormal (m : aiMatrix3x3 α) : Prop :=
  m.mul m.transpose = aiMatrix3x3.identity

/-- Rotation matrix: orthonormal with determinant `+1`. -/
def aiMatrix3x3.IsRotation (m : aiMatrix3x3 α) : Prop :=
  m.IsOrthonormal ∧ m.det = 1

/-- Two matrices agree in every one of the nine elements to within `tol`. -/
def aiMatrix3x3.Within (tol : α) (m n : aiMatrix3x3 α) : Prop :=
  |m.a1 - n.a1| ≤ tol ∧ |m.a2 - n.a2| ≤ tol ∧ |m.a3 - n.a3| ≤ tol ∧
  |m.b1 - n.b1| ≤ tol ∧ |m.b2 - n.b2| ≤ tol ∧ |m.b3 - n.b3| ≤ tol ∧
  |m.c1 - n.c1| ≤ tol ∧ |m.c2 - n.c2| ≤ tol ∧ |m.c3 - n.c3| ≤ tol

/-- Two quaternions agree in every one of the four components to within `tol`. -/
def aiQuaternion.Within (tol : α) (p q : aiQuaternion α) : Prop :=
  |p.w - q.w| ≤ tol ∧ |p.x - q.x| ≤ tol ∧ |p.y - q.y| ≤ tol ∧ |p.z - q.z| ≤ tol

/-- The vector rescaled by the factor `k`. -/
def aiVector3D.scale (k : α) (v : aiVector3D α) : aiVector3D α :=
  { x := k * v.x, y := k * v.y, z := k * v.z }

/-- The half turn about the axis `(0.8, 0.6, 0)`, as the unit quaternion
`(w, x, y, z) = (0, 0.8, 0.6, 0)`. -/
def halfTurn : aiQuaternion α :=
  { w := 0, x := 0.8, y := 0.6, z := 0 }

/-- The rotation matrix of the half turn about the axis `(0.8, 0.6, 0)`; it is
symmetric, so it is the same matrix under either vector convention. -/
def halfTurnMatrix : aiMatrix3x3 α :=
  { a1 := 0.28, a2 := 0.96, a3 := 0
    b1 := 0.96, b2 := -0.28, b3 := 0
    c1 := 0, c2 := 0, c3 := -1 }

/-- The Hamilton product `p * q` of two quaternions, with `i j = k`,
`j k = i`, `k i = j` and `i^2 = j^2 = k^2 = -1`. -/
def aiQuaternion.mul (p q : aiQuaternion α) : aiQuaternion α :=
  { w := p.w * q.w - p.x * q.x - p.y * q.y - p.z * q.z
    x := p.w * q.x + p.x * q.w + p.y * q.z - p.z * q.y
    y := p.w * q.y - p.x * q.z + p.y * q.w + p.z * q.x
    z := p.w * q.z + p.x * q.y - p.y * q.x + p.z * q.w }

/-- The largest of the three diagonal values `a1`, `b2`, `c3` is attained by
two or more of them. -/
def aiMatrix3x3.DiagonalTied (m : aiMatrix3x3 α) : Prop :=
  (m.a1 = m.b2 ∧ m.c3 ≤ m.a1) ∨ (m.a1 = m.c3 ∧ m.b2 ≤ m.a1) ∨ (m.b2 = m.c3 ∧ m.a1 ≤ m.b2)

/-- The rotation matrix of the half turn about the axis `(1, 1, 0)`: its
diagonal is `(0, 0, -1)`, so `t = 0` and `a1 = b2 > c3`. -/
def diagonalHalfTurnMatrix : aiMatrix3x3 α :=
  { a1 := 0, a2 := 1, a3 := 0
    b1 := 1, b2 := 0, b3 := 0
    c1 := 0, c2 := 0, c3 := -1 }

end Vocabulary

/-! ## Quaternion to matrix -/

/-- Orthonormality spelled out: the rows are unit vectors and pairwise
perpendicular. -/
theorem isOrthonormal_iff (m : aiMatrix3x3 ℝ) :
    m.IsOrthonormal ↔
      (m.a1 * m.a1 + m.a2 * m.a2 + m.a3 * m.a3 = 1 ∧
       m.b1 * m.b1 + m.b2 * m.b2 + m.b3 * m.b3 = 1 ∧
       m.c1 * m.c1 + m.c2 * m.c2 + m.c3 * m.c3 = 1 ∧
       m.a1 * m.b1 + m.a2 * m.b2 + m.a3 * m.b3 = 0 ∧
       m.a1 * m.c1 + m.a2 * m.c2 + m.a3 * m.c3 = 0 ∧
       m.b1 * m.c1 + m.b2 * m.c2 + m.b3 * m.c3 = 0) := by
  unfold aiMatrix3x3.IsOrthonormal aiMatrix3x3.mul aiMatrix3x3.transpose aiMatrix3x3.identity
  simp only [aiMatrix3x3.mk.injEq]
  constructor
  · rintro ⟨h1, h2, h3, -, h5, h6, -, -, h9⟩
    exact ⟨h1, h5, h9, h2, h3, h6⟩
  · rintro ⟨h1, h5, h9, h2, h3, h6⟩
    refine ⟨h1, h2, h3, ?_, h5, h6, ?_, ?_, h9⟩
    · linear_combination h2
    · linear_combination h3
    · linear_combination h6

/-- The matrix of a quaternion times its transpose is the identity plus
`4 (1 - |q|^2) (v vᵀ - |v|^2 I)`, `v` the vector part: the six row products. -/
theorem getMatrix_rows (q : aiQuaternion ℝ) :
    q.GetMatrix.a1 * q.GetMatrix.a1 + q.GetMatrix.a2 * q.GetMatrix.a2
        + q.GetMatrix.a3 * q.GetMatrix.a3 = 1 + 4 * (q.normSq - 1) * (q.y ^ 2 + q.z ^ 2) ∧
    q.GetMatrix.b1 * q.GetMatrix.b1 + q.GetMatrix.b2 * q.GetMatrix.b2
        + q.GetMatrix.b3 * q.GetMatrix.b3 = 1 + 4 * (q.normSq - 1) * (q.x ^ 2 + q.z ^ 2) ∧
    q.GetMatrix.c1 * q.GetMatrix.c1 + q.GetMatrix.c2 * q.GetMatrix.c2
        + q.GetMatrix.c3 * q.GetMatrix.c3 = 1 + 4 * (q.normSq - 1) * (q.x ^ 2 + q.y ^ 2) ∧
    q.GetMatrix.a1 * q.GetMatrix.b1 + q.GetMatrix.a2 * q.GetMatrix.b2
        + q.GetMatrix.a3 * q.GetMatrix.b3 = -(4 * (q.normSq - 1) * (q.x * q.y)) ∧
    q.GetMatrix.a1 * q.GetMatrix.c1 + q.GetMatrix.a2 * q.GetMatrix.c2
        + q.GetMatrix.a3 * q.GetMatrix.c3 = -(4 * (q.normSq - 1) * (q.x * q.z)) ∧
    q.GetMatrix.b1 * q.GetMatrix.c1 + q.GetMatrix.b2 * q.GetMatrix.c2
        + q.GetMatrix.b3 * q.GetMatrix.c3 = -(4 * (q.normSq - 1) * (q.y * q.z)) := by
  simp only [aiQuaternion.GetMatrix, aiQuaternion.normSq]
  refine ⟨?_, ?_, ?_, ?_, ?_, ?_⟩ <;> ring

/-- The determinant of the matrix of a quaternion. -/
theorem getMatrix_det (q : aiQuaternion ℝ) :
    q.GetMatrix.det = 1 + 4 * (q.normSq - 1) * (q.x ^ 2 + q.y ^ 2 + q.z ^ 2) := by
  simp only [aiQuaternion.GetMatrix, aiQuaternion.normSq, aiMatrix3x3.det]
  ring

/-- A sum of two real squares vanishes only when both terms do. -/
theorem sq_add_sq_eq_zero {a b : ℝ} (h : a ^ 2 + b ^ 2 = 0) : a = 0 ∧ b = 0 := by
  have ha : a ^ 2 = 0 := by nlinarith [sq_nonneg a, sq_nonneg b]
  have hb : b ^ 2 = 0 := by nlinarith [sq_nonneg a, sq_nonneg b]
  exact ⟨pow_eq_zero_iff (by norm_num) |>.mp ha, pow_eq_zero_iff (by norm_num) |>.mp hb⟩

/-- The matrix of a quaternion whose vector part is zero is the identity. -/
theorem getMatrix_of_vector_part_zero (q : aiQuaternion ℝ)
    (hx : q.x = 0) (hy : q.y = 0) (hz : q.z = 0) :
    q.GetMatrix = aiMatrix3x3.identity := by
  simp only [aiQuaternion.GetMatrix, aiMatrix3x3.identity, hx, hy, hz]
  norm_num

/-- C4: for every quaternion `q` of unit norm the matrix `q.GetMatrix()` is a
rotation matrix: it times its transpose is the identity matrix and its
determinant is `+1`. -/
theorem getMatrix_isRotation_of_unit (q : aiQuaternion ℝ) (h : q.normSq = 1) :
    q.GetMatrix.IsRotation := by
  refine ⟨?_, ?_⟩
  · rw [isOrthonormal_iff]
    obtain ⟨h1, h2, h3, h4, h5, h6⟩ := getMatrix_rows q
    simp only [h, sub_self, mul_zero, zero_mul, add_zero, neg_zero] at h1 h2 h3 h4 h5 h6
    exact ⟨h1, h2, h3, h4, h5, h6⟩
  · rw [getMatrix_det, h]
    ring

/-- Witness of C4 at the unit quaternion `(0.6, 0, 0.8, 0)`. -/
theorem getMatrix_isRotation_of_unit_witness :
    (aiQuaternion.mk 0.6 0 0.8 0 : aiQuaternion ℝ).normSq = 1 ∧
    (aiQuaternion.mk 0.6 0 0.8 0 : aiQuaternion ℝ).GetMatrix.IsRotation :=
  ⟨by norm_num [aiQuaternion.normSq],
   getMatrix_isRotation_of_unit _ (by norm_num [aiQuaternion.normSq])⟩

/-- C5, counterexample: the default-constructed quaternion `(0,0,0,0)` does not
have norm 1, yet its matrix is the identity matrix, which is orthonormal. -/
theorem getMatrix_default_isOrthonormal :
    (aiQuaternion.default : aiQuaternion ℝ).normSq ≠ 1 ∧
    (aiQuaternion.default : aiQuaternion ℝ).GetMatrix = aiMatrix3x3.identity ∧
    (aiQuaternion.default : aiQuaternion ℝ).GetMatrix.IsOrthonormal := by
  have hid : (aiQuaternion.default : aiQuaternion ℝ).GetMatrix = aiMatrix3x3.identity :=
    getMatrix_of_vector_part_zero _ rfl rfl rfl
  refine ⟨by norm_num [aiQuaternion.normSq, aiQuaternion.default], hid, ?_⟩
  rw [hid, isOrthonormal_iff]
  norm_num [aiMatrix3x3.identity]

/-- C5, amended: for every quaternion `q` whose norm is not 1, the matrix
`q.GetMatrix()` is orthonormal exactly when the vector part `(x, y, z)` of `q`
is zero, in which case it is the identity matrix; so it is not orthonormal as
soon as one of `x`, `y`, `z` is not zero. -/
theorem getMatrix_isOrthonormal_iff_of_not_unit (q : aiQuaternion ℝ) (h : q.normSq ≠ 1) :
    q.GetMatrix.IsOrthonormal ↔ (q.x = 0 ∧ q.y = 0 ∧ q.z = 0) := by
  constructor
  · intro ho
    rw [isOrthonormal_iff] at ho
    obtain ⟨h1, h2, -, -, -, -⟩ := getMatrix_rows q
    have hn : q.normSq - 1 ≠ 0 := sub_ne_zero.mpr h
    have k1 : 4 * (q.normSq - 1) * (q.y ^ 2 + q.z ^ 2) = 0 := by
      have := ho.1
      rw [h1] at this
      linarith
    have k2 : 4 * (q.normSq - 1) * (q.x ^ 2 + q.z ^ 2) = 0 := by
      have := ho.2.1
      rw [h2] at this
      linarith
    have hc : (4 : ℝ) * (q.normSq - 1) ≠ 0 := mul_ne_zero (by norm_num) hn
    have e1 : q.y ^ 2 + q.z ^ 2 = 0 := (mul_eq_zero.mp k1).resolve_left hc
    have e2 : q.x ^ 2 + q.z ^ 2 = 0 := (mul_eq_zero.mp k2).resolve_left hc
    exact ⟨(sq_add_sq_eq_zero e2).1, (sq_add_sq_eq_zero e1).1, (sq_add_sq_eq_zero e1).2⟩
  · rintro ⟨hx, hy, hz⟩
    rw [getMatrix_of_vector_part_zero q hx hy hz, isOrthonormal_iff]
    norm_num [aiMatrix3x3.identity]

/-- Witness of the amended C5 at the quaternion `(2, 1, 0, 0)` of norm `√5`. -/
theorem getMatrix_isOrthonormal_iff_of_not_unit_witness :
    (aiQuaternion.mk 2 1 0 0 : aiQuaternion ℝ).normSq ≠ 1 ∧
    ((aiQuaternion.mk 2 1 0 0 : aiQuaternion ℝ).GetMatrix.IsOrthonormal ↔
      ((aiQuaternion.mk 2 1 0 0 : aiQuaternion ℝ).x = 0 ∧
       (aiQuaternion.mk 2 1 0 0 : aiQuaternion ℝ).y = 0 ∧
       (aiQuaternion.mk 2 1 0 0 : aiQuaternion ℝ).z = 0)) :=
  ⟨by norm_num [aiQuaternion.normSq],
   getMatrix_isOrthonormal_iff_of_not_unit _ (by norm_num [aiQuaternion.normSq])⟩

/-! ## Euler angles to quaternion -/

/-- C7: for all real angles pitch, yaw and roll the quaternion built by the
Euler constructor has unit norm, `w^2 + x^2 + y^2 + z^2 = 1`. -/
theorem fromEuler_normSq (fPitch fYaw fRoll : ℝ) :
    (aiQuaternion.fromEuler Real.sin Real.cos fPitch fYaw fRoll).normSq = 1 := by
  simp only [aiQuaternion.fromEuler, aiQuaternion.normSq]
  have hp := Real.sin_sq_add_cos_sq (fPitch * 0.5)
  have hy := Real.sin_sq_add_cos_sq (fYaw * 0.5)
  have hr := Real.sin_sq_add_cos_sq (fRoll * 0.5)
  linear_combination
    ((Real.sin (fYaw * 0.5) ^ 2 + Real.cos (fYaw * 0.5) ^ 2) *
      (Real.sin (fRoll * 0.5) ^ 2 + Real.cos (fRoll * 0.5) ^ 2)) * hp +
    (Real.sin (fRoll * 0.5) ^ 2 + Real.cos (fRoll * 0.5) ^ 2) * hy + hr

/-! ## Matrix to quaternion: branches and divisor -/

/-- The constructor, branch by branch, in terms of the selected branch and its
divisor: `branchOf`, `radicandOf` and `divisorOf` describe the `if` chain and
the local `s` of `aiQuaternion(const aiMatrix3x3&)`. -/
theorem fromMatrix_eq {α : Type} [LinearOrderedField α] (sqrt : α → α) (m : aiMatrix3x3 α) :
    aiQuaternion.fromMatrix sqrt m =
      match aiQuaternion.branchOf m with
      | Branch.trace =>
          { x := (m.b3 - m.c2) / aiQuaternion.divisorOf sqrt m
            y := (m.c1 - m.a3) / aiQuaternion.divisorOf sqrt m
            z := (m.a2 - m.b1) / aiQuaternion.divisorOf sqrt m
            w := 0.25 * aiQuaternion.divisorOf sqrt m }
      | Branch.column0 =>
          { x := -0.25 * aiQuaternion.divisorOf sqrt m
            y := (m.a2 + m.b1) / aiQuaternion.divisorOf sqrt m
            z := (m.c1 + m.a3) / aiQuaternion.divisorOf sqrt m
            w := (m.c2 - m.b3) / aiQuaternion.divisorOf sqrt m }
      | Branch.column1 =>
          { x := (m.a2 + m.b1) / aiQuaternion.divisorOf sqrt m
            y := -0.25 * aiQuaternion.divisorOf sqrt m
            z := (m.b3 + m.c2) / aiQuaternion.divisorOf sqrt m
            w := (m.a3 - m.c1) / aiQuaternion.divisorOf sqrt m }
      | Branch.column2 =>
          { x := (m.c1 + m.a3) / aiQuaternion.divisorOf sqrt m
            y := (m.b3 + m.c2) / aiQuaternion.divisorOf sqrt m
            z := -0.25 * aiQuaternion.divisorOf sqrt m
            w := (m.b1 - m.a2) / aiQuaternion.divisorOf sqrt m } := by
  simp only [aiQuaternion.fromMatrix, aiQuaternion.branchOf, aiQuaternion.divisorOf,
    aiQuaternion.radicandOf]
  split_ifs <;> rfl

/-- The trace branch is selected exactly when `t = 1 + a1 + b2 + c3 > 1e-5`. -/
theorem branchOf_eq_trace_iff (m : aiMatrix3x3 ℝ) :
    aiQuaternion.branchOf m = Branch.trace ↔ 1 + m.a1 + m.b2 + m.c3 > 0.00001 := by
  simp only [aiQuaternion.branchOf]
  split_ifs with h1 h2 h3 <;> simp [h1]

/-- Column 0: with `t <= 1e-5` and `a` above both `b` and `c`, the radicand
`1 + a - b - c` exceeds 1. -/
theorem radicand_column0 {a b c : ℝ} (ht : ¬ 1 + a + b + c > 0.00001)
    (h : a > b ∧ a > c) : 1 < 1.0 + a - b - c := by
  obtain ⟨h1, h2⟩ := h
  norm_num at ht ⊢
  rcases le_or_lt 0 a with ha | ha
  · linarith
  · linarith

/-- Column 1: with `t <= 1e-5`, column 0 not selected and `b` above `c`, the
radicand `1 + b - a - c` exceeds 1. -/
theorem radicand_column1 {a b c : ℝ} (ht : ¬ 1 + a + b + c > 0.00001)
    (h0 : ¬ (a > b ∧ a > c)) (h1 : b > c) : 1 < 1.0 + b - a - c := by
  have hab : a ≤ b := by
    by_contra hc
    exact h0 ⟨lt_of_not_ge hc, lt_trans h1 (lt_of_not_ge hc)⟩
  norm_num at ht ⊢
  rcases le_or_lt 0 b with hb | hb
  · linarith
  · linarith

/-- Column 2: with `t <= 1e-5` and neither column 0 nor column 1 selected, the
radicand `1 + c - a - b` exceeds 1. -/
theorem radicand_column2 {a b c : ℝ} (ht : ¬ 1 + a + b + c > 0.00001)
    (h0 : ¬ (a > b ∧ a > c)) (h1 : ¬ b > c) : 1 < 1.0 + c - a - b := by
  have hbc : b ≤ c := le_of_not_gt h1
  have hac : a ≤ c := by
    by_contra hc
    have hca : c < a := lt_of_not_ge hc
    exact h0 ⟨lt_of_le_of_lt hbc hca, hca⟩
  norm_num at ht ⊢
  rcases le_or_lt 0 c with hc | hc
  · linarith
  · linarith

/-- The radicand of the selected branch is positive, and exceeds 1 in the three
pivot branches. -/
theorem radicandOf_bounds (m : aiMatrix3x3 ℝ) :
    0 < aiQuaternion.radicandOf m ∧
    (¬ 1 + m.a1 + m.b2 + m.c3 > 0.00001 → 1 < aiQuaternion.radicandOf m) := by
  simp only [aiQuaternion.radicandOf]
  split_ifs with h1 h2 h3
  · exact ⟨lt_trans (by norm_num) h1, fun h => absurd h1 h⟩
  · have := radicand_column0 h1 h2
    exact ⟨by linarith, fun _ => this⟩
  · have := radicand_column1 h1 h2 h3
    exact ⟨by linarith, fun _ => this⟩
  · have := radicand_column2 h1 h2 h3
    exact ⟨by linarith, fun _ => this⟩

/-- C6: no division by zero in the matrix constructor. For every real 3x3
matrix, orthonormal or not, the square-root argument of the selected branch is
positive and so is the divisor `s`; and whenever one of the three pivot
branches is selected, that is `t = 1 + a1 + b2 + c3 <= 1e-5`, the divisor
satisfies `s > 2`. -/
theorem fromMatrix_divisor_pos (m : aiMatrix3x3 ℝ) :
    0 < aiQuaternion.radicandOf m ∧
    0 < aiQuaternion.divisorOf Real.sqrt m ∧
    (1 + m.a1 + m.b2 + m.c3 ≤ 0.00001 →
      aiQuaternion.branchOf m ≠ Branch.trace ∧ 2 < aiQuaternion.divisorOf Real.sqrt m) := by
  obtain ⟨hpos, hone⟩ := radicandOf_bounds m
  refine ⟨hpos, ?_, ?_⟩
  · have := Real.sqrt_pos.mpr hpos
    simp only [aiQuaternion.divisorOf]
    linarith
  · intro ht
    have hnt : ¬ 1 + m.a1 + m.b2 + m.c3 > 0.00001 := not_lt.mpr ht
    refine ⟨fun hb => hnt ((branchOf_eq_trace_iff m).mp hb), ?_⟩
    have h1 : 1 < Real.sqrt (aiQuaternion.radicandOf m) := by
      rw [Real.lt_sqrt (by norm_num)]
      simpa using hone hnt
    simp only [aiQuaternion.divisorOf]
    linarith

/-- Witness of C6 at the half turn about the x axis, `diag(1, -1, -1)`, whose
`t` is 0: a pivot branch is selected and the divisor exceeds 2. -/
theorem fromMatrix_divisor_pos_witness :
    (1 + (1 : ℝ) + (-1) + (-1) ≤ 0.00001) ∧
    (aiQuaternion.branchOf (aiMatrix3x3.mk (1 : ℝ) 0 0 0 (-1) 0 0 0 (-1)) ≠ Branch.trace ∧
      2 < aiQuaternion.divisorOf Real.sqrt (aiMatrix3x3.mk (1 : ℝ) 0 0 0 (-1) 0 0 0 (-1))) :=
  ⟨by norm_num,
   (fromMatrix_divisor_pos (aiMatrix3x3.mk (1 : ℝ) 0 0 0 (-1) 0 0 0 (-1))).2.2 (by norm_num)⟩

/-! ## Matrix to quaternion: unit norm -/

/-- A rotation matrix spelled out: orthonormal rows and determinant 1. -/
theorem isRotation_iff (m : aiMatrix3x3 ℝ) :
    m.IsRotation ↔
      (m.a1 * m.a1 + m.a2 * m.a2 + m.a3 * m.a3 = 1 ∧
       m.b1 * m.b1 + m.b2 * m.b2 + m.b3 * m.b3 = 1 ∧
       m.c1 * m.c1 + m.c2 * m.c2 + m.c3 * m.c3 = 1 ∧
       m.a1 * m.b1 + m.a2 * m.b2 + m.a3 * m.b3 = 0 ∧
       m.a1 * m.c1 + m.a2 * m.c2 + m.a3 * m.c3 = 0 ∧
       m.b1 * m.c1 + m.b2 * m.c2 + m.b3 * m.c3 = 0) ∧
      m.a1 * (m.b2 * m.c3 - m.b3 * m.c2) - m.a2 * (m.b1 * m.c3 - m.b3 * m.c1)
        + m.a3 * (m.b1 * m.c2 - m.b2 * m.c1) = 1 := by
  unfold aiMatrix3x3.IsRotation
  rw [isOrthonormal_iff]
  rfl

/-- In a rotation matrix every diagonal entry equals its cofactor. -/
theorem rotation_cofactors {a1 a2 a3 b1 b2 b3 c1 c2 c3 : ℝ}
    (haa : a1 * a1 + a2 * a2 + a3 * a3 = 1) (hbb : b1 * b1 + b2 * b2 + b3 * b3 = 1)
    (hcc : c1 * c1 + c2 * c2 + c3 * c3 = 1) (hab : a1 * b1 + a2 * b2 + a3 * b3 = 0)
    (hac : a1 * c1 + a2 * c2 + a3 * c3 = 0) (hbc : b1 * c1 + b2 * c2 + b3 * c3 = 0)
    (hdet : a1 * (b2 * c3 - b3 * c2) - a2 * (b1 * c3 - b3 * c1)
      + a3 * (b1 * c2 - b2 * c1) = 1) :
    b2 * c3 - b3 * c2 = a1 ∧ a1 * c3 - a3 * c1 = b2 ∧ a1 * b2 - a2 * b1 = c3 := by
  refine ⟨?_, ?_, ?_⟩
  · linear_combination (-(b2 * c3 - b3 * c2)) * haa + (a2 * c3 - a3 * c2) * hab
      - (a2 * b3 - a3 * b2) * hac + a1 * hdet
  · linear_combination (b1 * c3 - b3 * c1) * hab - (a1 * c3 - a3 * c1) * hbb
      + (a1 * b3 - a3 * b1) * hbc + b2 * hdet
  · linear_combination (-(b1 * c2 - b2 * c1)) * hac + (a1 * c2 - a2 * c1) * hbc
      - (a1 * b2 - a2 * b1) * hcc + c3 * hdet

/-- In a rotation matrix the squares of the three antisymmetric differences add
up to `(1 + tr) (3 - tr)`. -/
theorem rotation_antisymmetric_part (a1 a2 a3 b1 b2 b3 c1 c2 c3 : ℝ)
    (haa : a1 * a1 + a2 * a2 + a3 * a3 = 1) (hbb : b1 * b1 + b2 * b2 + b3 * b3 = 1)
    (hcc : c1 * c1 + c2 * c2 + c3 * c3 = 1) (hab : a1 * b1 + a2 * b2 + a3 * b3 = 0)
    (hac : a1 * c1 + a2 * c2 + a3 * c3 = 0) (hbc : b1 * c1 + b2 * c2 + b3 * c3 = 0)
    (hdet : a1 * (b2 * c3 - b3 * c2) - a2 * (b1 * c3 - b3 * c1)
      + a3 * (b1 * c2 - b2 * c1) = 1) :
    (b3 - c2) ^ 2 + (c1 - a3) ^ 2 + (a2 - b1) ^ 2
      = (1 + a1 + b2 + c3) * (4 - (1 + a1 + b2 + c3)) := by
  obtain ⟨k1, k2, k3⟩ := rotation_cofactors haa hbb hcc hab hac hbc hdet
  linear_combination haa + hbb + hcc + 2 * k1 + 2 * k2 + 2 * k3

/-- The norm computation shared by the four branches: with divisor
`s = sqrt(u) * 2` for a positive `u`, one component `± s / 4` and the other
three `p / s`, `q / s`, `r / s` with `p^2 + q^2 + r^2 = u (4 - u)`, the squares
add up to 1. -/
theorem branch_normSq {u p q r : ℝ} (hu : 0 < u)
    (h : p ^ 2 + q ^ 2 + r ^ 2 = u * (4 - u)) :
    (0.25 * (Real.sqrt u * 2.0)) ^ 2 + (p / (Real.sqrt u * 2.0)) ^ 2
      + (q / (Real.sqrt u * 2.0)) ^ 2 + (r / (Real.sqrt u * 2.0)) ^ 2 = 1 := by
  have hs : Real.sqrt u ^ 2 = u := Real.sq_sqrt hu.le
  have hne : u ≠ 0 := ne_of_gt hu
  simp only [div_pow, mul_pow, hs]
  field_simp
  norm_num
  linear_combination h

/-- C3: for every orthonormal 3x3 matrix with determinant `+1` the quaternion
built by the matrix constructor has unit norm, `w^2 + x^2 + y^2 + z^2 = 1`,
whichever of the four branches is taken. -/
theorem fromMatrix_normSq (m : aiMatrix3x3 ℝ) (h : m.IsRotation) :
    (aiQuaternion.fromMatrix Real.sqrt m).normSq = 1 := by
  obtain ⟨⟨haa, hbb, hcc, hab, hac, hbc⟩, hdet⟩ := (isRotation_iff m).mp h
  simp only [aiQuaternion.fromMatrix]
  split_ifs with h1 h2 h3
  · -- trace branch
    have hu : (0 : ℝ) < 1 + m.a1 + m.b2 + m.c3 := lt_trans (by norm_num) h1
    have key := rotation_antisymmetric_part m.a1 m.a2 m.a3 m.b1 m.b2 m.b3 m.c1 m.c2 m.c3
      haa hbb hcc hab hac hbc hdet
    have := branch_normSq hu key
    simp only [aiQuaternion.normSq]
    linear_combination this
  · -- column 0: the same identity for the matrix with rows b and c negated
    have hu : (0 : ℝ) < 1.0 + m.a1 - m.b2 - m.c3 := lt_trans one_pos (radicand_column0 h1 h2)
    have key := rotation_antisymmetric_part m.a1 m.a2 m.a3
      (-m.b1) (-m.b2) (-m.b3) (-m.c1) (-m.c2) (-m.c3)
      haa (by linear_combination hbb) (by linear_combination hcc)
      (by linear_combination -hab) (by linear_combination -hac)
      (by linear_combination hbc) (by linear_combination hdet)
    have := branch_normSq (u := 1.0 + m.a1 - m.b2 - m.c3)
      (p := m.a2 + m.b1) (q := m.c1 + m.a3) (r := m.c2 - m.b3) hu
      (by norm_num; linear_combination key)
    simp only [aiQuaternion.normSq]
    linear_combination this
  · -- column 1: rows a and c negated
    have hu : (0 : ℝ) < 1.0 + m.b2 - m.a1 - m.c3 :=
      lt_trans one_pos (radicand_column1 h1 h2 h3)
    have key := rotation_antisymmetric_part (-m.a1) (-m.a2) (-m.a3)
      m.b1 m.b2 m.b3 (-m.c1) (-m.c2) (-m.c3)
      (by linear_combination haa) hbb (by linear_combination hcc)
      (by linear_combination -hab) (by linear_combination hac)
      (by linear_combination -hbc) (by linear_combination hdet)
    have := branch_normSq (u := 1.0 + m.b2 - m.a1 - m.c3)
      (p := m.a2 + m.b1) (q := m.b3 + m.c2) (r := m.a3 - m.c1) hu
      (by norm_num; linear_combination key)
    simp only [aiQuaternion.normSq]
    linear_combination this
  · -- column 2: rows a and b negated
    have hu : (0 : ℝ) < 1.0 + m.c3 - m.a1 - m.b2 :=
      lt_trans one_pos (radicand_column2 h1 h2 h3)
    have key := rotation_antisymmetric_part (-m.a1) (-m.a2) (-m.a3)
      (-m.b1) (-m.b2) (-m.b3) m.c1 m.c2 m.c3
      (by linear_combination haa) (by linear_combination hbb) hcc
      (by linear_combination hab) (by linear_combination -hac)
      (by linear_combination -hbc) (by linear_combination hdet)
    have := branch_normSq (u := 1.0 + m.c3 - m.a1 - m.b2)
      (p := m.c1 + m.a3) (q := m.b3 + m.c2) (r := m.b1 - m.a2) hu
      (by norm_num; linear_combination key)
    simp only [aiQuaternion.normSq]
    linear_combination this

/-- Witness of C3 at the half turn about `(0.8, 0.6, 0)`, a matrix with `t = 0`
that takes the column 0 branch. -/
theorem fromMatrix_normSq_witness :
    (halfTurnMatrix : aiMatrix3x3 ℝ).IsRotation ∧
    (aiQuaternion.fromMatrix Real.sqrt (halfTurnMatrix : aiMatrix3x3 ℝ)).normSq = 1 :=
  ⟨(isRotation_iff _).mpr (by norm_num [halfTurnMatrix]),
   fromMatrix_normSq _ ((isRotation_iff _).mpr (by norm_num [halfTurnMatrix]))⟩

/-! ## Round trips through a pivot branch -/

/-- The matrix of the half turn quaternion `(0, 0.8, 0.6, 0)`. -/
theorem halfTurn_getMatrix : (halfTurn : aiQuaternion ℝ).GetMatrix = halfTurnMatrix := by
  simp only [halfTurn, aiQuaternion.GetMatrix, halfTurnMatrix, aiMatrix3x3.mk.injEq]
  norm_num

/-- The half turn matrix has `t = 0` and its largest diagonal entry is `a1`: the
constructor takes the column 0 branch. -/
theorem halfTurnMatrix_branch :
    aiQuaternion.branchOf (halfTurnMatrix : aiMatrix3x3 ℝ) = Branch.column0 := by
  norm_num [aiQuaternion.branchOf, halfTurnMatrix]

/-- The divisor of the half turn matrix is `s = 2 sqrt(2.56) = 3.2`. -/
theorem halfTurnMatrix_divisor :
    aiQuaternion.divisorOf Real.sqrt (halfTurnMatrix : aiMatrix3x3 ℝ) = 3.2 := by
  have hr : aiQuaternion.radicandOf (halfTurnMatrix : aiMatrix3x3 ℝ) = 1.6 ^ 2 := by
    norm_num [aiQuaternion.radicandOf, halfTurnMatrix]
  rw [aiQuaternion.divisorOf, hr, Real.sqrt_sq (by norm_num)]
  norm_num

/-- The constructor at the half turn matrix: it returns `(0, -0.8, 0.6, 0)`,
the sign of `x` flipped against the quaternion `(0, 0.8, 0.6, 0)` but not the
sign of `y`. -/
theorem fromMatrix_halfTurnMatrix :
    aiQuaternion.fromMatrix Real.sqrt (halfTurnMatrix : aiMatrix3x3 ℝ)
      = { w := 0, x := -0.8, y := 0.6, z := 0 } := by
  rw [fromMatrix_eq, halfTurnMatrix_branch]
  simp only [halfTurnMatrix_divisor]
  simp only [halfTurnMatrix, aiQuaternion.mk.injEq]
  norm_num

/-- C1, at the failing input: the half turn about `(0.8, 0.6, 0)` is a rotation
matrix `M` that takes the column 0 branch, and `GetMatrix(aiQuaternion(M))`
has `a2 = b1 = -0.96` where `M` has `0.96`: the two matrices do not agree to
within `1e-5`. -/
theorem matrix_round_trip_fails_at_halfTurn :
    (halfTurnMatrix : aiMatrix3x3 ℝ).IsRotation ∧
    aiQuaternion.branchOf (halfTurnMatrix : aiMatrix3x3 ℝ) = Branch.column0 ∧
    (aiQuaternion.fromMatrix Real.sqrt (halfTurnMatrix : aiMatrix3x3 ℝ)).GetMatrix
      = { a1 := 0.28, a2 := -0.96, a3 := 0
          b1 := -0.96, b2 := -0.28, b3 := 0
          c1 := 0, c2 := 0, c3 := -1 } ∧
    ¬ aiMatrix3x3.Within 0.00001
        (aiQuaternion.fromMatrix Real.sqrt (halfTurnMatrix : aiMatrix3x3 ℝ)).GetMatrix
        halfTurnMatrix := by
  refine ⟨(isRotation_iff _).mpr (by norm_num [halfTurnMatrix]), halfTurnMatrix_branch, ?_, ?_⟩
  · rw [fromMatrix_halfTurnMatrix]
    simp only [aiQuaternion.GetMatrix, aiMatrix3x3.mk.injEq]
    norm_num
  · rw [fromMatrix_halfTurnMatrix]
    rintro ⟨-, h, -⟩
    norm_num [aiQuaternion.GetMatrix, halfTurnMatrix, abs_le] at h

/-- C2, at the failing input: the quaternion `q = (0, 0.8, 0.6, 0)` has unit
norm, and `aiQuaternion(q.GetMatrix())` is `(0, -0.8, 0.6, 0)`, which agrees to
within `1e-5` neither with `q` (the `x` components differ by 1.6) nor with
`-q` (the `y` components differ by 1.2). -/
theorem quaternion_round_trip_fails_at_halfTurn :
    (halfTurn : aiQuaternion ℝ).normSq = 1 ∧
    aiQuaternion.fromMatrix Real.sqrt (halfTurn : aiQuaternion ℝ).GetMatrix
      = { w := 0, x := -0.8, y := 0.6, z := 0 } ∧
    ¬ aiQuaternion.Within 0.00001
        (aiQuaternion.fromMatrix Real.sqrt (halfTurn : aiQuaternion ℝ).GetMatrix) halfTurn ∧
    ¬ aiQuaternion.Within 0.00001
        (aiQuaternion.fromMatrix Real.sqrt (halfTurn : aiQuaternion ℝ).GetMatrix)
        (halfTurn : aiQuaternion ℝ).neg := by
  rw [halfTurn_getMatrix, fromMatrix_halfTurnMatrix]
  refine ⟨by norm_num [aiQuaternion.normSq, halfTurn], rfl, ?_, ?_⟩
  · rintro ⟨-, h, -⟩
    norm_num [halfTurn, abs_le] at h
  · rintro ⟨-, -, h, -⟩
    norm_num [halfTurn, aiQuaternion.neg, abs_le] at h

/-! ## Axis and angle to quaternion -/

/-- A vector other than the zero vector has a positive squared length. -/
theorem sqLength_pos {v : aiVector3D ℝ} (h : v ≠ aiVector3D.mk 0 0 0) :
    0 < v.x * v.x + v.y * v.y + v.z * v.z := by
  rcases v with ⟨x, y, z⟩
  by_contra hc
  have h0 : x * x + y * y + z * z = 0 :=
    le_antisymm (not_lt.mp hc)
      (by nlinarith [mul_self_nonneg x, mul_self_nonneg y, mul_self_nonneg z])
  have hx : x = 0 := by nlinarith [mul_self_nonneg x, mul_self_nonneg y, mul_self_nonneg z]
  have hy : y = 0 := by nlinarith [mul_self_nonneg x, mul_self_nonneg y, mul_self_nonneg z]
  have hz : z = 0 := by nlinarith [mul_self_nonneg x, mul_self_nonneg y, mul_self_nonneg z]
  exact h (by rw [hx, hy, hz])

/-- The length of a vector rescaled by a positive factor. -/
theorem length_scale {k : ℝ} (hk : 0 < k) (v : aiVector3D ℝ) :
    (v.scale k).Length Real.sqrt = k * v.Length Real.sqrt := by
  simp only [aiVector3D.Length, aiVector3D.scale]
  rw [show k * v.x * (k * v.x) + k * v.y * (k * v.y) + k * v.z * (k * v.z)
      = k ^ 2 * (v.x * v.x + v.y * v.y + v.z * v.z) by ring,
    Real.sqrt_mul (sq_nonneg k), Real.sqrt_sq hk.le]

/-- C8: for every nonzero axis vector and every real angle, the quaternion
built by the axis-angle constructor has unit norm and equals
`(w = cos(angle/2), (x, y, z) = (axis / |axis|) * sin(angle/2))`, and it is
unchanged when the axis is rescaled by any positive factor `k`. -/
theorem fromAxisAngle_unit (axis : aiVector3D ℝ) (angle k : ℝ)
    (hne : axis ≠ aiVector3D.mk 0 0 0) (hk : 0 < k) :
    (aiQuaternion.fromAxisAngle Real.sqrt Real.sin Real.cos axis angle).normSq = 1 ∧
    aiQuaternion.fromAxisAngle Real.sqrt Real.sin Real.cos axis angle
      = { w := Real.cos (angle / 2)
          x := axis.x / Real.sqrt (axis.x ^ 2 + axis.y ^ 2 + axis.z ^ 2) * Real.sin (angle / 2)
          y := axis.y / Real.sqrt (axis.x ^ 2 + axis.y ^ 2 + axis.z ^ 2) * Real.sin (angle / 2)
          z := axis.z / Real.sqrt (axis.x ^ 2 + axis.y ^ 2 + axis.z ^ 2) * Real.sin (angle / 2) } ∧
    aiQuaternion.fromAxisAngle Real.sqrt Real.sin Real.cos (axis.scale k) angle
      = aiQuaternion.fromAxisAngle Real.sqrt Real.sin Real.cos axis angle := by
  have hpos := sqLength_pos hne
  have hL : axis.Length Real.sqrt ^ 2 = axis.x * axis.x + axis.y * axis.y + axis.z * axis.z :=
    Real.sq_sqrt hpos.le
  have hL0 : axis.Length Real.sqrt ≠ 0 := ne_of_gt (Real.sqrt_pos.mpr hpos)
  refine ⟨?_, ?_, ?_⟩
  · simp only [aiQuaternion.fromAxisAngle, aiQuaternion.normSq, aiVector3D.Normalize]
    have hsc := Real.sin_sq_add_cos_sq (angle / 2)
    field_simp
    linear_combination (axis.Length Real.sqrt ^ 2) * hsc
      - (Real.sin (angle / 2) ^ 2) * hL
  · simp only [aiQuaternion.fromAxisAngle, aiVector3D.Normalize, aiVector3D.Length,
      aiQuaternion.mk.injEq, pow_two]
  · simp only [aiQuaternion.fromAxisAngle, aiVector3D.Normalize, length_scale hk,
      aiQuaternion.mk.injEq]
    simp only [aiVector3D.scale]
    have hk0 : k ≠ 0 := ne_of_gt hk
    refine ⟨trivial, ?_, ?_, ?_⟩ <;> rw [mul_div_mul_left _ _ hk0]

/-- Witness of C8 at the axis `(0, 0, 2)`, which is not of unit length, the
angle 1 and the scale factor 3. -/
theorem fromAxisAngle_unit_witness :
    (aiVector3D.mk (0 : ℝ) 0 2 ≠ aiVector3D.mk 0 0 0 ∧ (0 : ℝ) < 3) ∧
    ((aiQuaternion.fromAxisAngle Real.sqrt Real.sin Real.cos
        (aiVector3D.mk (0 : ℝ) 0 2) 1).normSq = 1 ∧
     aiQuaternion.fromAxisAngle Real.sqrt Real.sin Real.cos (aiVector3D.mk (0 : ℝ) 0 2) 1
      = { w := Real.cos (1 / 2)
          x := (0 : ℝ) / Real.sqrt ((0 : ℝ) ^ 2 + 0 ^ 2 + 2 ^ 2) * Real.sin (1 / 2)
          y := (0 : ℝ) / Real.sqrt ((0 : ℝ) ^ 2 + 0 ^ 2 + 2 ^ 2) * Real.sin (1 / 2)
          z := (2 : ℝ) / Real.sqrt ((0 : ℝ) ^ 2 + 0 ^ 2 + 2 ^ 2) * Real.sin (1 / 2) } ∧
     aiQuaternion.fromAxisAngle Real.sqrt Real.sin Real.cos
        ((aiVector3D.mk (0 : ℝ) 0 2).scale 3) 1
      = aiQuaternion.fromAxisAngle Real.sqrt Real.sin Real.cos (aiVector3D.mk (0 : ℝ) 0 2) 1) :=
  ⟨⟨by simp [aiVector3D.mk.injEq], by norm_num⟩,
   fromAxisAngle_unit (aiVector3D.mk (0 : ℝ) 0 2) 1 3 (by simp [aiVector3D.mk.injEq])
     (by norm_num)⟩

/-- C9: axis-angle consistency. For every nonzero axis vector `a` and every
angle the matrix `M = aiQuaternion(a, angle).GetMatrix()` fixes the axis: the
matrix-vector product `M * a` equals `a`, with `a1 .. c3` read as row-major
entries. -/
theorem getMatrix_fromAxisAngle_fixes_axis (axis : aiVector3D ℝ) (angle : ℝ)
    (hne : axis ≠ aiVector3D.mk 0 0 0) :
    (aiQuaternion.fromAxisAngle Real.sqrt Real.sin Real.cos axis angle).GetMatrix.mulVec axis
      = axis := by
  have hL0 : axis.Length Real.sqrt ≠ 0 := ne_of_gt (Real.sqrt_pos.mpr (sqLength_pos hne))
  rcases axis with ⟨x, y, z⟩
  simp only [aiQuaternion.fromAxisAngle, aiQuaternion.GetMatrix, aiMatrix3x3.mulVec,
    aiVector3D.Normalize, aiVector3D.mk.injEq]
  refine ⟨?_, ?_, ?_⟩ <;> field_simp <;> ring

/-- Witness of C9 at the axis `(1, 2, 2)` and the angle 1. -/
theorem getMatrix_fromAxisAngle_fixes_axis_witness :
    aiVector3D.mk (1 : ℝ) 2 2 ≠ aiVector3D.mk 0 0 0 ∧
    (aiQuaternion.fromAxisAngle Real.sqrt Real.sin Real.cos
        (aiVector3D.mk (1 : ℝ) 2 2) 1).GetMatrix.mulVec (aiVector3D.mk (1 : ℝ) 2 2)
      = aiVector3D.mk (1 : ℝ) 2 2 :=
  ⟨by simp [aiVector3D.mk.injEq],
   getMatrix_fromAxisAngle_fixes_axis (aiVector3D.mk (1 : ℝ) 2 2) 1
     (by simp [aiVector3D.mk.injEq])⟩

/-! ## The quarter turn about the z axis -/

/-- The axis-angle constructor at the axis `(0, 0, 1)` and the angle `pi / 2`:
the quaternion `(sqrt 2 / 2, 0, 0, sqrt 2 / 2)`. -/
theorem fromAxisAngle_quarterTurn :
    aiQuaternion.fromAxisAngle Real.sqrt Real.sin Real.cos (aiVector3D.mk 0 0 1) (Real.pi / 2)
      = { w := Real.sqrt 2 / 2, x := 0, y := 0, z := Real.sqrt 2 / 2 } := by
  have h4 : Real.pi / 2 / 2 = Real.pi / 4 := by ring
  simp only [aiQuaternion.fromAxisAngle, aiVector3D.Normalize, aiVector3D.Length, h4,
    Real.sin_pi_div_four, Real.cos_pi_div_four, aiQuaternion.mk.injEq]
  norm_num

/-- The matrix of the quaternion `(sqrt 2 / 2, 0, 0, sqrt 2 / 2)`: rows
`(0, 1, 0)`, `(-1, 0, 0)`, `(0, 0, 1)`. -/
theorem getMatrix_quarterTurn :
    (aiQuaternion.mk (Real.sqrt 2 / 2) 0 0 (Real.sqrt 2 / 2)).GetMatrix
      = { a1 := 0, a2 := 1, a3 := 0, b1 := -1, b2 := 0, b3 := 0, c1 := 0, c2 := 0, c3 := 1 } := by
  simp only [aiQuaternion.GetMatrix, aiMatrix3x3.mk.injEq]
  refine ⟨?_, ?_, ?_, ?_, ?_, ?_, ?_, ?_, ?_⟩ <;> ring_nf <;> norm_num

/-- C10, counterexample: with `q = aiQuaternion((0,0,1), pi/2)`, the product
`M * v` of `M = q.GetMatrix()` and the column vector `v = (1,0,0)` is not
`(0,1,0)`. -/
theorem quarterTurn_mulVec_ne :
    (aiQuaternion.fromAxisAngle Real.sqrt Real.sin Real.cos (aiVector3D.mk 0 0 1)
        (Real.pi / 2)).GetMatrix.mulVec (aiVector3D.mk 1 0 0)
      ≠ aiVector3D.mk 0 1 0 := by
  rw [fromAxisAngle_quarterTurn, getMatrix_quarterTurn]
  simp only [aiMatrix3x3.mulVec, ne_eq, aiVector3D.mk.injEq]
  norm_num

/-- C10, amended: with `q = aiQuaternion((0,0,1), pi/2)`, which is
`(w, x, y, z) = (sqrt 2 / 2, 0, 0, sqrt 2 / 2)`, the matrix `M = q.GetMatrix()`
read with `a1 .. c3` as row-major entries maps `(1,0,0)` to `(0,-1,0)` when
applied to a column vector as `M * v`; it is the product `v * M` with the row
vector `v = (1,0,0)` that gives `(0,1,0)`. -/
theorem quarterTurn_maps :
    aiQuaternion.fromAxisAngle Real.sqrt Real.sin Real.cos (aiVector3D.mk 0 0 1) (Real.pi / 2)
      = { w := Real.sqrt 2 / 2, x := 0, y := 0, z := Real.sqrt 2 / 2 } ∧
    (aiQuaternion.fromAxisAngle Real.sqrt Real.sin Real.cos (aiVector3D.mk 0 0 1)
        (Real.pi / 2)).GetMatrix.mulVec (aiVector3D.mk 1 0 0)
      = aiVector3D.mk 0 (-1) 0 ∧
    aiMatrix3x3.vecMul (aiVector3D.mk 1 0 0)
        (aiQuaternion.fromAxisAngle Real.sqrt Real.sin Real.cos (aiVector3D.mk 0 0 1)
          (Real.pi / 2)).GetMatrix
      = aiVector3D.mk 0 1 0 := by
  rw [fromAxisAngle_quarterTurn, getMatrix_quarterTurn]
  simp only [aiMatrix3x3.mulVec, aiMatrix3x3.vecMul, aiVector3D.mk.injEq]
  norm_num

/-! ## Identity cases -/

/-- C11: the matrix constructor applied to the 3x3 identity matrix returns
exactly the identity quaternion `(w, x, y, z) = (1, 0, 0, 0)`, through the
trace branch with `t = 4` and `s = 4`. -/
theorem fromMatrix_identity :
    aiQuaternion.branchOf (aiMatrix3x3.identity : aiMatrix3x3 ℝ) = Branch.trace ∧
    aiQuaternion.radicandOf (aiMatrix3x3.identity : aiMatrix3x3 ℝ) = 4 ∧
    aiQuaternion.divisorOf Real.sqrt (aiMatrix3x3.identity : aiMatrix3x3 ℝ) = 4 ∧
    aiQuaternion.fromMatrix Real.sqrt (aiMatrix3x3.identity : aiMatrix3x3 ℝ)
      = { w := 1, x := 0, y := 0, z := 0 } := by
  have hb : aiQuaternion.branchOf (aiMatrix3x3.identity : aiMatrix3x3 ℝ) = Branch.trace := by
    norm_num [aiQuaternion.branchOf, aiMatrix3x3.identity]
  have hr : aiQuaternion.radicandOf (aiMatrix3x3.identity : aiMatrix3x3 ℝ) = 4 := by
    norm_num [aiQuaternion.radicandOf, aiMatrix3x3.identity]
  have hd : aiQuaternion.divisorOf Real.sqrt (aiMatrix3x3.identity : aiMatrix3x3 ℝ) = 4 := by
    rw [aiQuaternion.divisorOf, hr, show (4 : ℝ) = 2 ^ 2 by norm_num,
      Real.sqrt_sq (by norm_num)]
    norm_num
  refine ⟨hb, hr, hd, ?_⟩
  rw [fromMatrix_eq, hb]
  simp only [hd]
  simp only [aiMatrix3x3.identity, aiQuaternion.mk.injEq]
  norm_num

/-- C12: the Euler constructor with all three angles 0 returns the identity
quaternion `(w, x, y, z) = (1, 0, 0, 0)`, which differs from the
default-constructed quaternion `(0, 0, 0, 0)`. -/
theorem fromEuler_zero :
    aiQuaternion.fromEuler Real.sin Real.cos 0 0 0 = { w := 1, x := 0, y := 0, z := 0 } ∧
    aiQuaternion.fromEuler Real.sin Real.cos 0 0 0 ≠ (aiQuaternion.default : aiQuaternion ℝ) := by
  have h : aiQuaternion.fromEuler Real.sin Real.cos 0 0 0
      = { w := 1, x := 0, y := 0, z := 0 } := by
    simp [aiQuaternion.fromEuler]
  refine ⟨h, ?_⟩
  rw [h]
  simp [aiQuaternion.default]

/-! ## Double cover -/

/-- C14: double cover. For every quaternion `q`, of unit norm or not, negating
all four components does not change the matrix: `(-q).GetMatrix()` equals
`q.GetMatrix()` element for element. -/
theorem getMatrix_neg (q : aiQuaternion ℝ) : q.neg.GetMatrix = q.GetMatrix := by
  simp only [aiQuaternion.GetMatrix, aiQuaternion.neg, aiMatrix3x3.mk.injEq]
  refine ⟨?_, ?_, ?_, ?_, ?_, ?_, ?_, ?_, ?_⟩ <;> ring

/-! ## Single Euler angles and the composition order -/

/-- Half an angle, as the Euler constructor writes it, is half an angle as the
axis-angle constructor writes it. -/
theorem mul_half_eq_div_two (t : ℝ) : t * 0.5 = t / 2 := by
  norm_num
  ring

/-- The Euler constructor with the pitch angle alone: a rotation quaternion
about the y axis. -/
theorem fromEuler_pitch (t : ℝ) :
    aiQuaternion.fromEuler Real.sin Real.cos t 0 0
      = { w := Real.cos (t * 0.5), x := 0, y := Real.sin (t * 0.5), z := 0 } := by
  simp [aiQuaternion.fromEuler]

/-- The Euler constructor with the yaw angle alone: a rotation quaternion about
the z axis. -/
theorem fromEuler_yaw (t : ℝ) :
    aiQuaternion.fromEuler Real.sin Real.cos 0 t 0
      = { w := Real.cos (t * 0.5), x := 0, y := 0, z := Real.sin (t * 0.5) } := by
  simp [aiQuaternion.fromEuler]

/-- The Euler constructor with the roll angle alone: a rotation quaternion
about the x axis. -/
theorem fromEuler_roll (t : ℝ) :
    aiQuaternion.fromEuler Real.sin Real.cos 0 0 t
      = { w := Real.cos (t * 0.5), x := Real.sin (t * 0.5), y := 0, z := 0 } := by
  simp [aiQuaternion.fromEuler]

/-- The Euler constructor at pitch `pi`, yaw `pi` and roll 0: the quaternion
`(0, -1, 0, 0)`. -/
theorem fromEuler_pi_pi_zero :
    aiQuaternion.fromEuler Real.sin Real.cos Real.pi Real.pi 0
      = { w := 0, x := -1, y := 0, z := 0 } := by
  have h : Real.pi * 0.5 = Real.pi / 2 := mul_half_eq_div_two Real.pi
  simp [aiQuaternion.fromEuler, h]

/-- C15, counterexample: at pitch `pi`, yaw `pi` and roll 0 the Euler
constructor returns `(0, -1, 0, 0)`, while the Hamilton product `R * P * Y` of
the three single-angle quaternions is `(0, 1, 0, 0)`. -/
theorem fromEuler_ne_roll_pitch_yaw_product :
    aiQuaternion.fromEuler Real.sin Real.cos Real.pi Real.pi 0
      = { w := 0, x := -1, y := 0, z := 0 } ∧
    ((aiQuaternion.fromEuler Real.sin Real.cos 0 0 0).mul
        (aiQuaternion.fromEuler Real.sin Real.cos Real.pi 0 0)).mul
        (aiQuaternion.fromEuler Real.sin Real.cos 0 Real.pi 0)
      = { w := 0, x := 1, y := 0, z := 0 } ∧
    aiQuaternion.fromEuler Real.sin Real.cos Real.pi Real.pi 0
      ≠ ((aiQuaternion.fromEuler Real.sin Real.cos 0 0 0).mul
          (aiQuaternion.fromEuler Real.sin Real.cos Real.pi 0 0)).mul
          (aiQuaternion.fromEuler Real.sin Real.cos 0 Real.pi 0) := by
  have h : Real.pi * 0.5 = Real.pi / 2 := mul_half_eq_div_two Real.pi
  have hp : ((aiQuaternion.fromEuler Real.sin Real.cos 0 0 0).mul
        (aiQuaternion.fromEuler Real.sin Real.cos Real.pi 0 0)).mul
        (aiQuaternion.fromEuler Real.sin Real.cos 0 Real.pi 0)
      = { w := 0, x := 1, y := 0, z := 0 } := by
    rw [fromEuler_roll, fromEuler_pitch, fromEuler_yaw]
    simp [aiQuaternion.mul, h]
  refine ⟨fromEuler_pi_pi_zero, hp, ?_⟩
  rw [hp, fromEuler_pi_pi_zero]
  simp only [ne_eq, aiQuaternion.mk.injEq]
  norm_num

/-- C15, amended: for all angles the result of the Euler constructor for
`(pitch, yaw, roll)` equals the Hamilton product `Y * P * R` taken in that
order (yaw, then pitch, then roll), where `R`, `P` and `Y` are the
single-angle quaternions the same constructor yields for `(0, 0, roll)`,
`(pitch, 0, 0)` and `(0, yaw, 0)`. -/
theorem fromEuler_eq_yaw_pitch_roll_product (fPitch fYaw fRoll : ℝ) :
    aiQuaternion.fromEuler Real.sin Real.cos fPitch fYaw fRoll
      = ((aiQuaternion.fromEuler Real.sin Real.cos 0 fYaw 0).mul
          (aiQuaternion.fromEuler Real.sin Real.cos fPitch 0 0)).mul
          (aiQuaternion.fromEuler Real.sin Real.cos 0 0 fRoll) := by
  rw [fromEuler_roll, fromEuler_pitch, fromEuler_yaw]
  simp only [aiQuaternion.fromEuler, aiQuaternion.mul, aiQuaternion.mk.injEq]
  refine ⟨?_, ?_, ?_, ?_⟩ <;> ring

/-- The axis-angle constructor at a unit coordinate axis leaves the axis as it
is: the length of the axis is 1. -/
theorem fromAxisAngle_of_length_one (axis : aiVector3D ℝ) (t : ℝ)
    (h : axis.x * axis.x + axis.y * axis.y + axis.z * axis.z = 1) :
    aiQuaternion.fromAxisAngle Real.sqrt Real.sin Real.cos axis t
      = { w := Real.cos (t / 2), x := axis.x * Real.sin (t / 2)
          y := axis.y * Real.sin (t / 2), z := axis.z * Real.sin (t / 2) } := by
  simp [aiQuaternion.fromAxisAngle, aiVector3D.Normalize, aiVector3D.Length, h]

/-- C19: axes of the single Euler angles. For every angle `t` the Euler
constructor agrees with the axis-angle constructor: `(pitch = t, 0, 0)` is the
rotation about `(0, 1, 0)`, `(0, yaw = t, 0)` the rotation about `(0, 0, 1)` and
`(0, 0, roll = t)` the rotation about `(1, 0, 0)`; so the first parameter,
declared as `rotx`, turns about the y axis, the second, `roty`, about the z
axis and the third, `rotz`, about the x axis. -/
theorem fromEuler_single_angle_axes (t : ℝ) :
    aiQuaternion.fromEuler Real.sin Real.cos t 0 0
      = aiQuaternion.fromAxisAngle Real.sqrt Real.sin Real.cos (aiVector3D.mk 0 1 0) t ∧
    aiQuaternion.fromEuler Real.sin Real.cos 0 t 0
      = aiQuaternion.fromAxisAngle Real.sqrt Real.sin Real.cos (aiVector3D.mk 0 0 1) t ∧
    aiQuaternion.fromEuler Real.sin Real.cos 0 0 t
      = aiQuaternion.fromAxisAngle Real.sqrt Real.sin Real.cos (aiVector3D.mk 1 0 0) t := by
  rw [fromEuler_pitch, fromEuler_yaw, fromEuler_roll, mul_half_eq_div_two,
    fromAxisAngle_of_length_one _ _ (by norm_num),
    fromAxisAngle_of_length_one _ _ (by norm_num),
    fromAxisAngle_of_length_one _ _ (by norm_num)]
  simp

/-! ## Pivot selection -/

/-- The three pivot branches, once the trace test has failed: the conditions
of the `else if` chain. -/
theorem branchOf_pivot (m : aiMatrix3x3 ℝ) (ht : 1 + m.a1 + m.b2 + m.c3 ≤ 0.00001) :
    (aiQuaternion.branchOf m = Branch.column0 ↔ (m.a1 > m.b2 ∧ m.a1 > m.c3)) ∧
    (aiQuaternion.branchOf m = Branch.column1 ↔ (¬ (m.a1 > m.b2 ∧ m.a1 > m.c3) ∧ m.b2 > m.c3)) ∧
    (aiQuaternion.branchOf m = Branch.column2 ↔
      (¬ (m.a1 > m.b2 ∧ m.a1 > m.c3) ∧ ¬ m.b2 > m.c3)) ∧
    aiQuaternion.branchOf m ≠ Branch.trace := by
  have hnt : ¬ 1 + m.a1 + m.b2 + m.c3 > 0.00001 := not_lt.mpr ht
  simp only [aiQuaternion.branchOf, if_neg hnt]
  split_ifs with h2 h3
  · simp [h2]
  · simp [h2, h3]
  · simp [h2, h3]

/-- The half turn about `(1, 1, 0)` has `t = 0` and the tie `a1 = b2 > c3`; the
constructor takes the column 1 branch. -/
theorem diagonalHalfTurnMatrix_branch :
    aiQuaternion.branchOf (diagonalHalfTurnMatrix : aiMatrix3x3 ℝ) = Branch.column1 := by
  norm_num [aiQuaternion.branchOf, diagonalHalfTurnMatrix]

/-- C16, counterexample: the half turn about `(1, 1, 0)` is a rotation matrix
with `t = 0 <= 1e-5` whose largest diagonal value 0 is attained by both `a1`
and `b2`, above `c3 = -1`; the constructor takes the column 1 branch, not the
column 2 branch. -/
theorem tie_a1_b2_takes_column1 :
    (diagonalHalfTurnMatrix : aiMatrix3x3 ℝ).IsRotation ∧
    1 + (diagonalHalfTurnMatrix : aiMatrix3x3 ℝ).a1 + (diagonalHalfTurnMatrix : aiMatrix3x3 ℝ).b2
      + (diagonalHalfTurnMatrix : aiMatrix3x3 ℝ).c3 ≤ 0.00001 ∧
    (diagonalHalfTurnMatrix : aiMatrix3x3 ℝ).DiagonalTied ∧
    aiQuaternion.branchOf (diagonalHalfTurnMatrix : aiMatrix3x3 ℝ) = Branch.column1 ∧
    aiQuaternion.branchOf (diagonalHalfTurnMatrix : aiMatrix3x3 ℝ) ≠ Branch.column2 := by
  refine ⟨(isRotation_iff _).mpr (by norm_num [diagonalHalfTurnMatrix]),
    by norm_num [diagonalHalfTurnMatrix],
    Or.inl (by norm_num [diagonalHalfTurnMatrix]), diagonalHalfTurnMatrix_branch, ?_⟩
  rw [diagonalHalfTurnMatrix_branch]
  decide

/-- C16, amended: for every matrix with `t = 1 + a1 + b2 + c3 <= 1e-5` whose
largest diagonal value is attained by two or more of `a1`, `b2`, `c3`, the
constructor takes the column 1 branch when the tie is `a1 = b2 > c3`, and the
last branch, column 2, in every other case, that is when `c3` is one of the
tied largest values. -/
theorem tie_break (m : aiMatrix3x3 ℝ) (ht : 1 + m.a1 + m.b2 + m.c3 ≤ 0.00001)
    (htie : m.DiagonalTied) :
    ((m.a1 = m.b2 ∧ m.c3 < m.b2) → aiQuaternion.branchOf m = Branch.column1) ∧
    (¬ (m.a1 = m.b2 ∧ m.c3 < m.b2) →
      aiQuaternion.branchOf m = Branch.column2 ∧ m.a1 ≤ m.c3 ∧ m.b2 ≤ m.c3) := by
  obtain ⟨-, h1, h2, -⟩ := branchOf_pivot m ht
  constructor
  · rintro ⟨hab, hcb⟩
    exact h1.mpr ⟨fun h => absurd h.1 (by rw [hab]; exact lt_irrefl _), hcb⟩
  · intro hn
    have hc : m.a1 ≤ m.c3 ∧ m.b2 ≤ m.c3 := by
      rcases htie with ⟨hab, hca⟩ | ⟨hac, hba⟩ | ⟨hbc, hab⟩
      · have hbc : m.b2 ≤ m.c3 := by
          by_contra hlt
          exact hn ⟨hab, lt_of_not_ge hlt⟩
        exact ⟨hab ▸ hbc, hbc⟩
      · exact ⟨le_of_eq hac, hac ▸ hba⟩
      · exact ⟨hbc ▸ hab, le_of_eq hbc⟩
    refine ⟨h2.mpr ⟨fun h => ?_, fun h => ?_⟩, hc⟩
    · exact absurd h.2 (not_lt.mpr hc.1)
    · exact absurd h (not_lt.mpr hc.2)

/-- Witness of the amended C16 at `diag(-1, 0, 0)`, where `t = 0` and the tie
is `b2 = c3 > a1`: the column 2 branch is taken. -/
theorem tie_break_witness :
    (1 + (aiMatrix3x3.mk (-1 : ℝ) 0 0 0 0 0 0 0 0).a1 + (aiMatrix3x3.mk (-1 : ℝ) 0 0 0 0 0 0 0 0).b2
        + (aiMatrix3x3.mk (-1 : ℝ) 0 0 0 0 0 0 0 0).c3 ≤ 0.00001 ∧
      (aiMatrix3x3.mk (-1 : ℝ) 0 0 0 0 0 0 0 0).DiagonalTied) ∧
    aiQuaternion.branchOf (aiMatrix3x3.mk (-1 : ℝ) 0 0 0 0 0 0 0 0) = Branch.column2 :=
  ⟨⟨by norm_num, Or.inr (Or.inr (by norm_num))⟩,
   ((tie_break (aiMatrix3x3.mk (-1 : ℝ) 0 0 0 0 0 0 0 0) (by norm_num)
      (Or.inr (Or.inr (by norm_num)))).2 (by norm_num)).1⟩

/-- C17: pivot selection picks a largest diagonal element. For every real
matrix with `t = 1 + a1 + b2 + c3 <= 1e-5` one of the three pivot branches is
taken, and its pivot is greater than or equal to both other diagonal
elements: column 0 implies `a1 >= b2` and `a1 >= c3`, column 1 implies
`b2 >= a1` and `b2 >= c3`, column 2 implies `c3 >= a1` and `c3 >= b2`. -/
theorem pivot_is_largest (m : aiMatrix3x3 ℝ) (ht : 1 + m.a1 + m.b2 + m.c3 ≤ 0.00001) :
    (aiQuaternion.branchOf m = Branch.column0 ∨ aiQuaternion.branchOf m = Branch.column1 ∨
      aiQuaternion.branchOf m = Branch.column2) ∧
    (aiQuaternion.branchOf m = Branch.column0 → m.b2 ≤ m.a1 ∧ m.c3 ≤ m.a1) ∧
    (aiQuaternion.branchOf m = Branch.column1 → m.a1 ≤ m.b2 ∧ m.c3 ≤ m.b2) ∧
    (aiQuaternion.branchOf m = Branch.column2 → m.a1 ≤ m.c3 ∧ m.b2 ≤ m.c3) := by
  obtain ⟨h0, h1, h2, hnt⟩ := branchOf_pivot m ht
  refine ⟨?_, ?_, ?_, ?_⟩
  · cases hb : aiQuaternion.branchOf m
    · exact absurd hb hnt
    · exact Or.inl rfl
    · exact Or.inr (Or.inl rfl)
    · exact Or.inr (Or.inr rfl)
  · intro hb
    obtain ⟨hab, hac⟩ := h0.mp hb
    exact ⟨le_of_lt hab, le_of_lt hac⟩
  · intro hb
    obtain ⟨hn, hbc⟩ := h1.mp hb
    refine ⟨?_, le_of_lt hbc⟩
    by_contra hlt
    have hab : m.b2 < m.a1 := lt_of_not_ge hlt
    exact hn ⟨hab, lt_trans hbc hab⟩
  · intro hb
    obtain ⟨hn, hbc⟩ := h2.mp hb
    have hbc2 : m.b2 ≤ m.c3 := le_of_not_gt hbc
    refine ⟨?_, hbc2⟩
    by_contra hlt
    have hca : m.c3 < m.a1 := lt_of_not_ge hlt
    exact hn ⟨lt_of_le_of_lt hbc2 hca, hca⟩

/-- Witness of C17 at the half turn about `(0.8, 0.6, 0)`, where `t = 0`. -/
theorem pivot_is_largest_witness :
    (1 + (halfTurnMatrix : aiMatrix3x3 ℝ).a1 + (halfTurnMatrix : aiMatrix3x3 ℝ).b2
        + (halfTurnMatrix : aiMatrix3x3 ℝ).c3 ≤ 0.00001) ∧
    ((aiQuaternion.branchOf (halfTurnMatrix : aiMatrix3x3 ℝ) = Branch.column0 ∨
        aiQuaternion.branchOf (halfTurnMatrix : aiMatrix3x3 ℝ) = Branch.column1 ∨
        aiQuaternion.branchOf (halfTurnMatrix : aiMatrix3x3 ℝ) = Branch.column2) ∧
      (aiQuaternion.branchOf (halfTurnMatrix : aiMatrix3x3 ℝ) = Branch.column0 →
        (halfTurnMatrix : aiMatrix3x3 ℝ).b2 ≤ (halfTurnMatrix : aiMatrix3x3 ℝ).a1 ∧
        (halfTurnMatrix : aiMatrix3x3 ℝ).c3 ≤ (halfTurnMatrix : aiMatrix3x3 ℝ).a1) ∧
      (aiQuaternion.branchOf (halfTurnMatrix : aiMatrix3x3 ℝ) = Branch.column1 →
        (halfTurnMatrix : aiMatrix3x3 ℝ).a1 ≤ (halfTurnMatrix : aiMatrix3x3 ℝ).b2 ∧
        (halfTurnMatrix : aiMatrix3x3 ℝ).c3 ≤ (halfTurnMatrix : aiMatrix3x3 ℝ).b2) ∧
      (aiQuaternion.branchOf (halfTurnMatrix : aiMatrix3x3 ℝ) = Branch.column2 →
        (halfTurnMatrix : aiMatrix3x3 ℝ).a1 ≤ (halfTurnMatrix : aiMatrix3x3 ℝ).c3 ∧
        (halfTurnMatrix : aiMatrix3x3 ℝ).b2 ≤ (halfTurnMatrix : aiMatrix3x3 ℝ).c3)) :=
  ⟨by norm_num [halfTurnMatrix],
   pivot_is_largest (halfTurnMatrix : aiMatrix3x3 ℝ) (by norm_num [halfTurnMatrix])⟩

/-! ## Round trip through the trace branch -/

/-- The trace test value of the matrix of a unit quaternion is `(2 w)^2`. -/
theorem getMatrix_trace_test (q : aiQuaternion ℝ) (h : q.normSq = 1) :
    1 + q.GetMatrix.a1 + q.GetMatrix.b2 + q.GetMatrix.c3 = (2 * q.w) ^ 2 := by
  simp only [aiQuaternion.normSq] at h
  simp only [aiQuaternion.GetMatrix]
  linear_combination (-4) * h

/-- The antisymmetric differences of the matrix of a quaternion. -/
theorem getMatrix_antisymmetric_part (q : aiQuaternion ℝ) :
    q.GetMatrix.b3 - q.GetMatrix.c2 = 4 * q.w * q.x ∧
    q.GetMatrix.c1 - q.GetMatrix.a3 = 4 * q.w * q.y ∧
    q.GetMatrix.a2 - q.GetMatrix.b1 = 4 * q.w * q.z := by
  simp only [aiQuaternion.GetMatrix]
  refine ⟨?_, ?_, ?_⟩ <;> ring

/-- In the trace branch the radicand is `t` itself. -/
theorem radicandOf_trace (m : aiMatrix3x3 ℝ) (h : 1 + m.a1 + m.b2 + m.c3 > 0.00001) :
    aiQuaternion.radicandOf m = 1 + m.a1 + m.b2 + m.c3 := by
  simp only [aiQuaternion.radicandOf, if_pos h]

/-- The constructor at the matrix of a unit quaternion with `4 w^2 > 1e-5`: the
trace branch, with divisor `4 |w|`. -/
theorem fromMatrix_getMatrix_of_trace (q : aiQuaternion ℝ) (h : q.normSq = 1)
    (hw : 4 * q.w ^ 2 > 0.00001) :
    aiQuaternion.branchOf q.GetMatrix = Branch.trace ∧
    aiQuaternion.fromMatrix Real.sqrt q.GetMatrix
      = { w := 0.25 * (4 * |q.w|)
          x := 4 * q.w * q.x / (4 * |q.w|)
          y := 4 * q.w * q.y / (4 * |q.w|)
          z := 4 * q.w * q.z / (4 * |q.w|) } := by
  have ht := getMatrix_trace_test q h
  have hgt : 1 + q.GetMatrix.a1 + q.GetMatrix.b2 + q.GetMatrix.c3 > 0.00001 := by
    rw [ht, show (2 * q.w) ^ 2 = 4 * q.w ^ 2 by ring]
    exact hw
  have hb := (branchOf_eq_trace_iff q.GetMatrix).mpr hgt
  have hd : aiQuaternion.divisorOf Real.sqrt q.GetMatrix = 4 * |q.w| := by
    rw [aiQuaternion.divisorOf, radicandOf_trace _ hgt, ht, Real.sqrt_sq_eq_abs, abs_mul]
    norm_num
    ring
  obtain ⟨hx, hy, hz⟩ := getMatrix_antisymmetric_part q
  refine ⟨hb, ?_⟩
  rw [fromMatrix_eq, hb]
  simp only [hd, hx, hy, hz]

/-- C18: round trip through the trace branch with canonical sign. For every
quaternion `q` of unit norm with `4 w^2 > 1e-5`, `aiQuaternion(q.GetMatrix())`
takes the first branch and equals `q` when `w > 0` and `-q` when `w < 0`; so
its `w` component is always positive. -/
theorem fromMatrix_getMatrix_trace (q : aiQuaternion ℝ) (h : q.normSq = 1)
    (hw : 4 * q.w ^ 2 > 0.00001) :
    aiQuaternion.branchOf q.GetMatrix = Branch.trace ∧
    (0 < q.w → aiQuaternion.fromMatrix Real.sqrt q.GetMatrix = q) ∧
    (q.w < 0 → aiQuaternion.fromMatrix Real.sqrt q.GetMatrix = q.neg) ∧
    0 < (aiQuaternion.fromMatrix Real.sqrt q.GetMatrix).w := by
  obtain ⟨hb, hq⟩ := fromMatrix_getMatrix_of_trace q h hw
  have hw0 : q.w ≠ 0 := by
    intro h0
    rw [h0] at hw
    norm_num at hw
  refine ⟨hb, ?_, ?_, ?_⟩
  · intro hpos
    rw [hq, abs_of_pos hpos]
    rcases q with ⟨w, x, y, z⟩
    simp only [aiQuaternion.mk.injEq]
    have hw1 : w ≠ 0 := hw0
    refine ⟨?_, ?_, ?_, ?_⟩
    · ring
    · rw [div_eq_iff (by simpa using hw1)]
      ring
    · rw [div_eq_iff (by simpa using hw1)]
      ring
    · rw [div_eq_iff (by simpa using hw1)]
      ring
  · intro hneg
    rw [hq, abs_of_neg hneg]
    rcases q with ⟨w, x, y, z⟩
    simp only [aiQuaternion.neg, aiQuaternion.mk.injEq]
    have hw1 : w ≠ 0 := hw0
    refine ⟨?_, ?_, ?_, ?_⟩
    · ring
    · rw [div_eq_iff (by simpa using hw1)]
      ring
    · rw [div_eq_iff (by simpa using hw1)]
      ring
    · rw [div_eq_iff (by simpa using hw1)]
      ring
  · rw [hq]
    have := abs_pos.mpr hw0
    show 0 < 0.25 * (4 * |q.w|)
    norm_num
    exact hw0

/-- Witness of C18 at the unit quaternion `(-0.6, 0, 0.8, 0)`, whose `w` is
negative. -/
theorem fromMatrix_getMatrix_trace_witness :
    ((aiQuaternion.mk (-0.6) 0 0.8 0 : aiQuaternion ℝ).normSq = 1 ∧
      4 * (aiQuaternion.mk (-0.6) 0 0.8 0 : aiQuaternion ℝ).w ^ 2 > 0.00001) ∧
    (aiQuaternion.branchOf (aiQuaternion.mk (-0.6) 0 0.8 0 : aiQuaternion ℝ).GetMatrix
        = Branch.trace ∧
      (0 < (aiQuaternion.mk (-0.6) 0 0.8 0 : aiQuaternion ℝ).w →
        aiQuaternion.fromMatrix Real.sqrt (aiQuaternion.mk (-0.6) 0 0.8 0 : aiQuaternion ℝ).GetMatrix
          = aiQuaternion.mk (-0.6) 0 0.8 0) ∧
      ((aiQuaternion.mk (-0.6) 0 0.8 0 : aiQuaternion ℝ).w < 0 →
        aiQuaternion.fromMatrix Real.sqrt (aiQuaternion.mk (-0.6) 0 0.8 0 : aiQuaternion ℝ).GetMatrix
          = (aiQuaternion.mk (-0.6) 0 0.8 0 : aiQuaternion ℝ).neg) ∧
      0 < (aiQuaternion.fromMatrix Real.sqrt
        (aiQuaternion.mk (-0.6) 0 0.8 0 : aiQuaternion ℝ).GetMatrix).w) :=
  ⟨⟨by norm_num [aiQuaternion.normSq], by norm_num⟩,
   fromMatrix_getMatrix_trace (aiQuaternion.mk (-0.6) 0 0.8 0)
     (by norm_num [aiQuaternion.normSq]) (by norm_num)⟩

/-! ## Effect of the axis-angle constructor on its argument -/

/-- The quaternion a call of the axis-angle constructor builds is the one of
`fromAxisAngle`. -/
theorem callFromAxisAngle_result (argument : aiVector3D ℝ) (angle : ℝ) :
    (aiQuaternion.callFromAxisAngle Real.sqrt Real.sin Real.cos argument angle).result
      = aiQuaternion.fromAxisAngle Real.sqrt Real.sin Real.cos argument angle := rfl

/-- A nonzero vector, once normalized, has length 1. -/
theorem length_normalize {v : aiVector3D ℝ} (h : v ≠ aiVector3D.mk 0 0 0) :
    (v.Normalize Real.sqrt).Length Real.sqrt = 1 := by
  have hpos := sqLength_pos h
  have hL : v.Length Real.sqrt ^ 2 = v.x * v.x + v.y * v.y + v.z * v.z :=
    Real.sq_sqrt hpos.le
  have hL0 : v.Length Real.sqrt ≠ 0 := ne_of_gt (Real.sqrt_pos.mpr hpos)
  have hone : v.x / v.Length Real.sqrt * (v.x / v.Length Real.sqrt)
      + v.y / v.Length Real.sqrt * (v.y / v.Length Real.sqrt)
      + v.z / v.Length Real.sqrt * (v.z / v.Length Real.sqrt) = 1 := by
    field_simp
    linear_combination -hL
  show Real.sqrt _ = 1
  simp only [aiVector3D.Normalize]
  rw [hone, Real.sqrt_one]

/-- C13, counterexample: the caller passes the axis `(0, 0, 2)`, which is not
the zero vector; after the call its vector is still `(0, 0, 2)`, of length 2
and not of unit length. -/
theorem callFromAxisAngle_argument_not_normalized :
    aiVector3D.mk (0 : ℝ) 0 2 ≠ aiVector3D.mk 0 0 0 ∧
    (aiQuaternion.callFromAxisAngle Real.sqrt Real.sin Real.cos
        (aiVector3D.mk 0 0 2) 1).argument = aiVector3D.mk 0 0 2 ∧
    (aiQuaternion.callFromAxisAngle Real.sqrt Real.sin Real.cos
        (aiVector3D.mk 0 0 2) 1).argument.Length Real.sqrt = 2 ∧
    (aiQuaternion.callFromAxisAngle Real.sqrt Real.sin Real.cos
        (aiVector3D.mk 0 0 2) 1).argument.Length Real.sqrt ≠ 1 := by
  have hlen : (aiVector3D.mk (0 : ℝ) 0 2).Length Real.sqrt = 2 := by
    simp only [aiVector3D.Length]
    rw [show (0 : ℝ) * 0 + 0 * 0 + 2 * 2 = 2 ^ 2 by norm_num, Real.sqrt_sq (by norm_num)]
  refine ⟨by simp [aiVector3D.mk.injEq], rfl, hlen, ?_⟩
  show (aiVector3D.mk (0 : ℝ) 0 2).Length Real.sqrt ≠ 1
  rw [hlen]
  norm_num

/-- C13, amended: the axis-angle constructor takes its axis by value. After
`aiQuaternion(axis, angle)` returns, the vector of the caller is unchanged,
for every nonzero axis, of unit length or not; it is the copy held by the
constructor that has been normalized to unit length, and the quaternion is
built from that copy. -/
theorem callFromAxisAngle_frame (argument : aiVector3D ℝ) (angle : ℝ)
    (hne : argument ≠ aiVector3D.mk 0 0 0) :
    (aiQuaternion.callFromAxisAngle Real.sqrt Real.sin Real.cos argument angle).argument
      = argument ∧
    (aiQuaternion.callFromAxisAngle Real.sqrt Real.sin Real.cos argument angle).axis
      = argument.Normalize Real.sqrt ∧
    (aiQuaternion.callFromAxisAngle Real.sqrt Real.sin Real.cos argument angle).axis.Length
      Real.sqrt = 1 ∧
    (aiQuaternion.callFromAxisAngle Real.sqrt Real.sin Real.cos argument angle).result
      = aiQuaternion.fromAxisAngle Real.sqrt Real.sin Real.cos argument angle :=
  ⟨rfl, rfl, length_normalize hne, callFromAxisAngle_result argument angle⟩

/-- Witness of the amended C13 at the axis `(0, 0, 2)` and the angle 1. -/
theorem callFromAxisAngle_frame_witness :
    aiVector3D.mk (0 : ℝ) 0 2 ≠ aiVector3D.mk 0 0 0 ∧
    ((aiQuaternion.callFromAxisAngle Real.sqrt Real.sin Real.cos
        (aiVector3D.mk 0 0 2) 1).argument = aiVector3D.mk 0 0 2 ∧
      (aiQuaternion.callFromAxisAngle Real.sqrt Real.sin Real.cos
        (aiVector3D.mk 0 0 2) 1).axis = (aiVector3D.mk (0 : ℝ) 0 2).Normalize Real.sqrt ∧
      (aiQuaternion.callFromAxisAngle Real.sqrt Real.sin Real.cos
        (aiVector3D.mk 0 0 2) 1).axis.Length Real.sqrt = 1 ∧
      (aiQuaternion.callFromAxisAngle Real.sqrt Real.sin Real.cos
        (aiVector3D.mk 0 0 2) 1).result
        = aiQuaternion.fromAxisAngle Real.sqrt Real.sin Real.cos (aiVector3D.mk 0 0 2) 1) :=
  ⟨by simp [aiVector3D.mk.injEq],
   callFromAxisAngle_frame (aiVector3D.mk 0 0 2) 1 (by simp [aiVector3D.mk.injEq])⟩

end Assimp
